import Mathlib

/-!
Verification of the timeline-alignment and audio-assembly engine of the
video re-dubbing pipeline.  Durations and timestamps are modelled as
rationals; 16-bit PCM samples are modelled as integers (one list entry per
sample); the float32 buffer of the numpy-based assembler is modelled with
rationals.  External services (TTS API, ffmpeg/ffprobe, the filesystem) are
modelled by explicit parameters: the measured duration of a clip, the
outcome of each API attempt, the per-sentence audio file contents.
-/

/-- Python `int(q)` on a number: truncation toward zero. -/
def pyInt (q : ℚ) : ℤ := if q < 0 then ⌈q⌉ else ⌊q⌋

/-- Normalisation of a Python/numpy slice index `i` against a sequence of
length `L`: negative indices count from the end, then the index is clamped
to `[0, L]`. -/
def pyIdx (i : ℤ) (L : ℕ) : ℕ := if i < 0 then ((L : ℤ) + i).toNat else min i.toNat L

/-- Python `x[:n]` for an integer bound `n` (possibly negative). -/
def pySliceTo {α : Type} (x : List α) (n : ℤ) : List α := x.take (pyIdx n x.length)

/-- Result of one run of a duration aligner: what the function decided to do
with the raw clip.  `stretched s` records the `atempo` speed factor,
`padded p` the seconds of appended silence. -/
inductive AlignAction : Type where
  | failed : AlignAction
  | keptUnchanged : AlignAction
  | stretched : ℚ → AlignAction
  | padded : ℚ → AlignAction
deriving DecidableEq, Repr

/-- `align_audio_to_duration` of `step3_C_align_audio.py` (lines 56-84).
`actual` is the ffprobe-measured duration of the input file,
`target_duration` the slot duration.  Branches in source order:
match (rename), slow down (`1.1 < ratio < 2.0`), speed up
(`0.5 < ratio < 0.9`), pad (`ratio ≥ 2.0`), final else (rename). -/
def align_audio_to_duration (actual target_duration : ℚ) : AlignAction :=
  if actual ≤ 0 then .failed
  else
    let r := target_duration / actual
    if 0.9 ≤ r ∧ r ≤ 1.1 then .keptUnchanged
    else if 1.1 < r ∧ r < 2.0 then .stretched (1.0 / r)
    else if r < 0.9 ∧ 0.5 < r then .stretched (1.0 / r)
    else if 2.0 ≤ r then .padded (target_duration - actual)
    else .keptUnchanged

/-- `TTSGenerator._align_audio_duration` of
`video-translator/modules/tts_generator.py` (lines 457-486).  Branches in
source order: copy when `0.9 ≤ ratio ≤ 1.1`, speed change when
`ratio < 2.2`, pad when `ratio ≥ 2.2`, dead final else (copy). -/
def alignAudioDuration (actual target_duration : ℚ) : AlignAction :=
  if actual ≤ 0 then .failed
  else
    let r := target_duration / actual
    if 0.9 ≤ r ∧ r ≤ 1.1 then .keptUnchanged
    else if r < 2.2 then .stretched (1.0 / r)
    else if 2.2 ≤ r then .padded (target_duration - actual)
    else .keptUnchanged

/-- The align operation exactly as claim C2 words it: accept unchanged when
`0.9 ≤ ratio ≤ 1.1`, otherwise time-stretch by `1/ratio` when
`ratio < 2.2`, otherwise pad with `target − actual` seconds of silence;
fail outright when `actual ≤ 0`.  Written from the claim, to be compared
with the two implementations above. -/
def alignSpec (actual target_duration : ℚ) : AlignAction :=
  if actual ≤ 0 then .failed
  else
    let r := target_duration / actual
    if 0.9 ≤ r ∧ r ≤ 1.1 then .keptUnchanged
    else if r < 2.2 then .stretched (1.0 / r)
    else .padded (target_duration - actual)

/-- Target word budget of `match_timestamps_and_adjust` in
`step2_translate.py` (line 261): `max(int(duration * 2.5), 3)`, where
Python `int` truncates toward zero. -/
def target_words (duration : ℚ) : ℤ := max (pyInt (duration * 2.5)) 3

/-- The word budget as claim C8 words it: `max(round(duration × 2.5), 3)`.
Rounding half away from zero; the counterexample below is robust to any
rounding convention for halves since `1.5 × 2.5 = 3.75`. -/
def targetWordsSpec (duration : ℚ) : ℤ := max ⌊duration * 2.5 + 1/2⌋ 3

/-- One record of `sentence_info`: absolute start and end in seconds plus
the source-language text. -/
structure SentenceRec : Type where
  start : ℚ
  stop : ℚ
  text : String
deriving DecidableEq, Repr

/-- Contents of a segment audio file as seen by `wave.open`: channel count,
frame rate, and the decoded 16-bit samples. -/
structure WavFile : Type where
  channels : ℕ
  framerate : ℕ
  samples : List ℤ
deriving DecidableEq, Repr

/-- Stable insertion into a list sorted ascending by start time; together
with `sortByStart` this is the Python `sorted(audio_segments,
key=lambda x: x[0])` of the two bytearray assemblers. -/
def insertByStart (a : ℚ × Option WavFile) :
    List (ℚ × Option WavFile) → List (ℚ × Option WavFile)
  | [] => [a]
  | b :: bs => if a.1 ≤ b.1 then a :: b :: bs else b :: insertByStart a bs

/-- Stable ascending sort by segment start time. -/
def sortByStart : List (ℚ × Option WavFile) → List (ℚ × Option WavFile)
  | [] => []
  | x :: xs => insertByStart x (sortByStart xs)

/-- One placement into the bytearray buffer, at 16-bit-sample granularity
(`tts_generator.py` lines 779-788, `step3_generate_audio.py` lines
281-292):

    start_byte = start_sample * 2
    end_byte = start_byte + len(frames)
    if end_byte > len(audio_data):
        frames = frames[:len(audio_data) - start_byte]
        end_byte = len(audio_data)
    audio_data[start_byte:end_byte] = frames

All byte offsets stay sample-aligned (frames hold whole mono 16-bit
frames), so the model works in samples.  Python bytearray slice assignment
replaces the normalised slice `[a, b)` by the payload, which inserts at the
end — growing the buffer — when the start index lies beyond the end. -/
def placeFrames (buf : List ℤ) (startSample : ℤ) (frames : List ℤ) : List ℤ :=
  let L := buf.length
  let endSample : ℤ := startSample + frames.length
  let frames2 := if endSample > (L : ℤ) then pySliceTo frames ((L : ℤ) - startSample) else frames
  let endSample2 : ℤ := if endSample > (L : ℤ) then (L : ℤ) else endSample
  let a := pyIdx startSample L
  let b := max a (pyIdx endSample2 L)
  buf.take a ++ frames2 ++ buf.drop b

/-- `TTSGenerator._assemble_audio_timeline` of `tts_generator.py` (lines
757-803), identical in logic to `assemble_audio_timeline` of
`step3_generate_audio.py` (lines 241-314): sort the segments by start
time, allocate `int(total_duration * 24000)` zero samples, then place each
existing, mono, 24000 Hz segment at `int(start_time * 24000)` samples.
A segment whose file is missing or unreadable, or fails the format check,
is skipped (`None` here). -/
def assembleAudioTimeline (audio_segments : List (ℚ × Option WavFile))
    (total_duration : ℚ) : List ℤ :=
  let sorted := sortByStart audio_segments
  let total_samples := (pyInt (total_duration * 24000)).toNat
  sorted.foldl
    (fun buf seg =>
      match seg.2 with
      | none => buf
      | some f =>
          if f.channels ≠ 1 ∨ f.framerate ≠ 24000 then buf
          else placeFrames buf (pyInt (seg.1 * 24000)) f.samples)
    (List.replicate total_samples 0)

/-- The per-segment step of the bytearray assembler. -/
def assembleStep (buf : List ℤ) (seg : ℚ × Option WavFile) : List ℤ :=
  match seg.2 with
  | none => buf
  | some f =>
      if f.channels ≠ 1 ∨ f.framerate ≠ 24000 then buf
      else placeFrames buf (pyInt (seg.1 * 24000)) f.samples

/-- `total_duration = sentences[-1].get("end", 0) if sentences else 60`
(`tts_generator.py` line 251). -/
def totalDurationOf (sentences : List SentenceRec) : ℚ :=
  match sentences.getLast? with
  | some s => s.stop
  | none => 60

/-- Audio data returned by `soundfile.read`: a 1-D array for a mono file,
a 2-D `(frames, 2)` array for stereo.  `step3_C_align_audio.py` reads
float data, modelled as rationals. -/
inductive SfData : Type where
  | mono : List ℚ → SfData
  | stereo : List (ℚ × ℚ) → SfData
deriving DecidableEq, Repr

/-- Python `len(data)` of the soundfile array: frames (rows) in both
shapes. -/
def SfData.len : SfData → ℕ
  | .mono xs => xs.length
  | .stereo xs => xs.length

/-- An audio file as read by `soundfile.read`: samplerate and data. -/
structure SfFile : Type where
  samplerate : ℕ
  data : SfData
deriving DecidableEq, Repr

/-- The numpy statement `full_wave[a:b] += data[:b - a]` of
`step3_C_align_audio.py` line 111.  `a`, `b` are the raw integer bounds
(`b` already clamped by `min` in the caller).  In-place addition succeeds
when the right-hand side has the same length as the slice, or broadcasts
from length one; a 2-D right-hand side (stereo data) can never broadcast
into a 1-D slice, and any other length mismatch is likewise a ValueError
(`none`). -/
def npAddSlice (buf : List ℚ) (a b : ℤ) (data : SfData) : Option (List ℚ) :=
  let L := buf.length
  let a2 := pyIdx a L
  let b2 := max a2 (pyIdx b L)
  let k := b2 - a2
  match data with
  | .stereo _ => none
  | .mono xs =>
      let rhs := pySliceTo xs (b - a)
      if rhs.length = k then
        some (buf.take a2 ++ List.zipWith (· + ·) ((buf.drop a2).take k) rhs ++ buf.drop b2)
      else
        match rhs with
        | [r] => some (buf.take a2 ++ ((buf.drop a2).take k).map (· + r) ++ buf.drop b2)
        | _ => none

/-- `assemble_full_audio` of `step3_C_align_audio.py` (lines 86-115).  The
sentences come paired with the per-index aligned file (`none` when
`aligned_{i}.wav` is missing).  `sentences[-1]["end"]` raises on an empty
list and `np.zeros` raises on a negative size; the additive placement can
raise a broadcasting ValueError — all modelled as `none`. -/
def assemble_full_audio (items : List (SentenceRec × Option SfFile)) :
    Option (List ℚ) :=
  match items.getLast? with
  | none => none
  | some last =>
      let total_samples := pyInt (last.1.stop * 24000)
      if total_samples < 0 then none
      else
        items.foldlM
          (fun buf item =>
            match item.2 with
            | none => some buf
            | some f =>
                if f.samplerate ≠ 24000 then some buf
                else
                  let start_idx := pyInt (item.1.start * 24000)
                  let end_idx := min (start_idx + f.data.len) (buf.length : ℤ)
                  npAddSlice buf start_idx end_idx f.data)
          (List.replicate total_samples.toNat 0)

/-- Outcome of one call to the external TTS service, as observed by the
retry loops: a response carrying audio of some measured duration (and the
wall-clock generation time), a response with no audio payload, a retryable
error (timeout / 504 / server busy), or any other exception. -/
inductive TtsOutcome : Type where
  | ok : ℚ → ℚ → TtsOutcome
  | noAudio : TtsOutcome
  | errRetryable : TtsOutcome
  | errFatal : TtsOutcome
deriving DecidableEq, Repr

/-- Python's `not text.strip()` guard: true exactly when the text is all
whitespace (or empty). -/
def pyStripIsEmpty (s : String) : Bool := s.toList.all Char.isWhitespace

/-- The `while attempt < max_retries` loop of `generate_female_voice` in
`step3_B_generate_audio.py` (lines 48-113), starting at attempt number
`attempt` with `fuel = max_retries - attempt` iterations left.  Returns
whether the call succeeded and how many API calls were made.  Per
iteration: no audio payload → retry; audio of duration `> 20` or `< 1` →
discard and retry; otherwise keep the clip and succeed; timeout / busy
errors → retry; any other exception → fail at once.  Falling out of the
loop fails. -/
def genFemaleFrom (outcomes : ℕ → TtsOutcome) (attempt : ℕ) :
    ℕ → Bool × ℕ
  | 0 => (false, attempt)
  | fuel + 1 =>
      match outcomes attempt with
      | .noAudio => genFemaleFrom outcomes (attempt + 1) fuel
      | .ok d _ =>
          if d > 20 ∨ d < 1 then genFemaleFrom outcomes (attempt + 1) fuel
          else (true, attempt + 1)
      | .errRetryable => genFemaleFrom outcomes (attempt + 1) fuel
      | .errFatal => (false, attempt + 1)

/-- `generate_female_voice(text_en, output_path, max_retries)` of
`step3_B_generate_audio.py`: empty (stripped) text fails without any API
call; otherwise run the retry loop. -/
def generate_female_voice (text_en : String) (outcomes : ℕ → TtsOutcome)
    (max_retries : ℕ) : Bool × ℕ :=
  if pyStripIsEmpty text_en then (false, 0)
  else genFemaleFrom outcomes 0 max_retries

/-- The `for attempt in range(max_retries)` loop of
`TTSGenerator._generate_with_voice_cloning` (`tts_generator.py` lines
578-739), with `fuel` iterations left; `fuel = 0` means the range is
exhausted (return False).  On an audio response the clip is written to the
output path; with a positive target duration: duration `> 30` retries
(returns the clip anyway on the last attempt), duration ratio in
`[0.5, 2.2]` accepts, any other ratio retries (returns the clip anyway on
the last attempt).  Without a positive target: duration `> 30` retries
unless last, then a long generation time (`> 45`) with duration `< 1` or
`> 20` retries unless last; otherwise accept.  No audio payload or an
exception retries, failing when the budget is spent. -/
def genCloneFrom (outcomes : ℕ → TtsOutcome) (target_duration : Option ℚ)
    (attempt : ℕ) : ℕ → Bool × ℕ
  | 0 => (false, attempt)
  | fuel + 1 =>
      let isLast := fuel = 0
      match outcomes attempt with
      | .ok d gt =>
          match target_duration with
          | some t =>
              if 0 < t then
                if d > 30 then
                  if isLast then (true, attempt + 1)
                  else genCloneFrom outcomes target_duration (attempt + 1) fuel
                else if 0.5 ≤ d / t ∧ d / t ≤ 2.2 then (true, attempt + 1)
                else if isLast then (true, attempt + 1)
                else genCloneFrom outcomes target_duration (attempt + 1) fuel
              else
                if d > 30 ∧ ¬isLast then
                  genCloneFrom outcomes target_duration (attempt + 1) fuel
                else if gt > 45 ∧ (d < 1 ∨ d > 20) ∧ ¬isLast then
                  genCloneFrom outcomes target_duration (attempt + 1) fuel
                else (true, attempt + 1)
          | none =>
              if d > 30 ∧ ¬isLast then
                genCloneFrom outcomes target_duration (attempt + 1) fuel
              else if gt > 45 ∧ (d < 1 ∨ d > 20) ∧ ¬isLast then
                genCloneFrom outcomes target_duration (attempt + 1) fuel
              else (true, attempt + 1)
      | .noAudio =>
          if isLast then (false, attempt + 1)
          else genCloneFrom outcomes target_duration (attempt + 1) fuel
      | .errRetryable =>
          if isLast then (false, attempt + 1)
          else genCloneFrom outcomes target_duration (attempt + 1) fuel
      | .errFatal =>
          if isLast then (false, attempt + 1)
          else genCloneFrom outcomes target_duration (attempt + 1) fuel

/-- `TTSGenerator._generate_with_voice_cloning` with its retry budget
(default `max_retries=5`). -/
def generateWithVoiceCloning (outcomes : ℕ → TtsOutcome)
    (target_duration : Option ℚ) (max_retries : ℕ) : Bool × ℕ :=
  genCloneFrom outcomes target_duration 0 max_retries

/-- The retry loop of `TTSGenerator._generate_with_preset_voice`
(`tts_generator.py` lines 336-455).  Differs from the cloning loop in the
no-target branch: a clip of duration `> 20` or `< 0.5` is deleted and,
on the last attempt, the call FAILS; likewise a generation time `> 30`
with duration `< 1` or `> 15`.  A missing audio payload on the last
attempt returns False. -/
def genPresetFrom (outcomes : ℕ → TtsOutcome) (target_duration : Option ℚ)
    (attempt : ℕ) : ℕ → Bool × ℕ
  | 0 => (false, attempt)
  | fuel + 1 =>
      let isLast := fuel = 0
      match outcomes attempt with
      | .ok d gt =>
          match target_duration with
          | some t =>
              if 0 < t then
                if d > 30 then
                  if isLast then (true, attempt + 1)
                  else genPresetFrom outcomes target_duration (attempt + 1) fuel
                else if 0.5 ≤ d / t ∧ d / t ≤ 2.2 then (true, attempt + 1)
                else if isLast then (true, attempt + 1)
                else genPresetFrom outcomes target_duration (attempt + 1) fuel
              else
                if d > 20 ∨ d < 0.5 then
                  if isLast then (false, attempt + 1)
                  else genPresetFrom outcomes target_duration (attempt + 1) fuel
                else if gt > 30 ∧ (d < 1 ∨ d > 15) then
                  if isLast then (false, attempt + 1)
                  else genPresetFrom outcomes target_duration (attempt + 1) fuel
                else (true, attempt + 1)
          | none =>
              if d > 20 ∨ d < 0.5 then
                if isLast then (false, attempt + 1)
                else genPresetFrom outcomes target_duration (attempt + 1) fuel
              else if gt > 30 ∧ (d < 1 ∨ d > 15) then
                if isLast then (false, attempt + 1)
                else genPresetFrom outcomes target_duration (attempt + 1) fuel
              else (true, attempt + 1)
      | .noAudio =>
          if isLast then (false, attempt + 1)
          else genPresetFrom outcomes target_duration (attempt + 1) fuel
      | .errRetryable =>
          if isLast then (false, attempt + 1)
          else genPresetFrom outcomes target_duration (attempt + 1) fuel
      | .errFatal =>
          if isLast then (false, attempt + 1)
          else genPresetFrom outcomes target_duration (attempt + 1) fuel

/-- `TTSGenerator._generate_with_preset_voice` with empty-text guard and
its retry budget (default `max_retries=10`). -/
def generateWithPresetVoice (text : String) (outcomes : ℕ → TtsOutcome)
    (target_duration : Option ℚ) (max_retries : ℕ) : Bool × ℕ :=
  if pyStripIsEmpty text then (false, 0)
  else genPresetFrom outcomes target_duration 0 max_retries

/-- Duration of a sentence as computed by `_find_best_reference`:
`sent.get("end", 0) - sent.get("start", 0)`. -/
def durOf (s : SentenceRec) : ℚ := s.stop - s.start

/-- The reference-candidate filter of `_find_best_reference`
(`tts_generator.py` line 542): `min_duration <= duration <= max_duration
and len(text) > 8`. -/
def refCandOK (min_duration max_duration : ℚ) (s : SentenceRec) : Bool :=
  decide (min_duration ≤ durOf s ∧ durOf s ≤ max_duration ∧ 8 < s.text.length)

/-- Stable insertion into a list of `(index, sentence, duration)` triples
sorted descending by duration; with `sortByDurDesc` this models Python's
stable `sorted(..., key=lambda x: x[2], reverse=True)`. -/
def insertByDurDesc (x : ℕ × SentenceRec × ℚ) :
    List (ℕ × SentenceRec × ℚ) → List (ℕ × SentenceRec × ℚ)
  | [] => [x]
  | y :: ys => if y.2.2 ≤ x.2.2 then x :: y :: ys else y :: insertByDurDesc x ys

/-- Stable descending sort by the duration component. -/
def sortByDurDesc : List (ℕ × SentenceRec × ℚ) → List (ℕ × SentenceRec × ℚ)
  | [] => []
  | x :: xs => insertByDurDesc x (sortByDurDesc xs)

/-- `TTSGenerator._find_best_reference(sentences, min_duration=3.0,
max_duration=6.0)` (`tts_generator.py` lines 534-554): keep the
`(index, sentence, duration)` triples passing the filter, in order; if
none passes, fall back to the three longest-duration sentences (stable
descending sort, first three); return the first candidate, or `None` for
an empty candidate list. -/
def findBestReference (sentences : List SentenceRec)
    (min_duration max_duration : ℚ) : Option (ℕ × SentenceRec × ℚ) :=
  let triples := sentences.enum.map (fun p => (p.1, p.2, durOf p.2))
  let candidates := triples.filter (fun c => refCandOK min_duration max_duration c.2.1)
  let candidates :=
    if candidates.isEmpty then (sortByDurDesc triples).take 3 else candidates
  candidates.head?

/-- The background-mix step of `TTSGenerator.generate` (`tts_generator.py`
lines 261-267):

    if keep_background and bgm_path and os.path.exists(bgm_path):
        if self._mix_audio_with_bgm(speech_only, bgm_path, ...):
            speech_only = temp_output

`bgm_path` is `none` when no background track was produced; `pathExists`
models `os.path.exists`; `mixOutcome` models the ffmpeg invocation
(`none` = `_mix_audio_with_bgm` returned False, e.g. unreadable input).
The value returned is the track that flows on to MP3 conversion. -/
def mixBackgroundStep (speech_only : List ℤ) (keep_background : Bool)
    (bgm_path : Option String) (pathExists : String → Bool)
    (mixOutcome : Option (List ℤ)) : List ℤ :=
  match bgm_path with
  | none => speech_only
  | some p =>
      if keep_background ∧ pathExists p then
        match mixOutcome with
        | some mixed => mixed
        | none => speech_only
      else speech_only

/-! ## Helper lemmas -/

/-- Every bad-duration response walks the female-voice loop to exhaustion. -/
theorem genFemaleFrom_all_short (attempt : ℕ) :
    ∀ fuel, genFemaleFrom (fun _ => TtsOutcome.ok (1/2) 1) attempt fuel =
      (false, attempt + fuel) := by
  intro fuel
  induction fuel generalizing attempt with
  | zero => simp [genFemaleFrom]
  | succ n ih =>
      have hcond : ((1 : ℚ)/2 > 20 ∨ (1 : ℚ)/2 < 1) := by norm_num
      simp only [genFemaleFrom, if_pos hcond, ih, Prod.mk.injEq]
      exact ⟨trivial, by omega⟩

/-- The female-voice loop makes at most `attempt + fuel` API calls. -/
theorem genFemaleFrom_calls_le (o : ℕ → TtsOutcome) (attempt : ℕ) :
    ∀ fuel, (genFemaleFrom o attempt fuel).2 ≤ attempt + fuel := by
  intro fuel
  induction fuel generalizing attempt with
  | zero => simp [genFemaleFrom]
  | succ n ih =>
      cases h : o attempt with
      | ok d gt =>
          simp only [genFemaleFrom, h]
          split
          · exact le_trans (ih (attempt + 1)) (by omega)
          · simp only; omega
      | noAudio =>
          simp only [genFemaleFrom, h]
          exact le_trans (ih (attempt + 1)) (by omega)
      | errRetryable =>
          simp only [genFemaleFrom, h]
          exact le_trans (ih (attempt + 1)) (by omega)
      | errFatal =>
          simp only [genFemaleFrom, h]
          omega

/-- The voice-cloning loop makes at most `attempt + fuel` API calls. -/
theorem genCloneFrom_calls_le (o : ℕ → TtsOutcome) (t : Option ℚ) (attempt : ℕ) :
    ∀ fuel, (genCloneFrom o t attempt fuel).2 ≤ attempt + fuel := by
  intro fuel
  induction fuel generalizing attempt with
  | zero => simp [genCloneFrom]
  | succ n ih =>
      cases h : o attempt with
      | ok d gt =>
          cases t with
          | some tq =>
              simp only [genCloneFrom, h]
              split
              · split
                · split
                  · simp only; omega
                  · exact le_trans (ih (attempt + 1)) (by omega)
                · split
                  · simp only; omega
                  · split
                    · simp only; omega
                    · exact le_trans (ih (attempt + 1)) (by omega)
              · split
                · exact le_trans (ih (attempt + 1)) (by omega)
                · split
                  · exact le_trans (ih (attempt + 1)) (by omega)
                  · simp only; omega
          | none =>
              simp only [genCloneFrom, h]
              split
              · exact le_trans (ih (attempt + 1)) (by omega)
              · split
                · exact le_trans (ih (attempt + 1)) (by omega)
                · simp only; omega
      | noAudio =>
          simp only [genCloneFrom, h]
          split
          · simp only; omega
          · exact le_trans (ih (attempt + 1)) (by omega)
      | errRetryable =>
          simp only [genCloneFrom, h]
          split
          · simp only; omega
          · exact le_trans (ih (attempt + 1)) (by omega)
      | errFatal =>
          simp only [genCloneFrom, h]
          split
          · simp only; omega
          · exact le_trans (ih (attempt + 1)) (by omega)

/-- The preset-voice loop makes at most `attempt + fuel` API calls. -/
theorem genPresetFrom_calls_le (o : ℕ → TtsOutcome) (t : Option ℚ) (attempt : ℕ) :
    ∀ fuel, (genPresetFrom o t attempt fuel).2 ≤ attempt + fuel := by
  intro fuel
  induction fuel generalizing attempt with
  | zero => simp [genPresetFrom]
  | succ n ih =>
      cases h : o attempt with
      | ok d gt =>
          cases t with
          | some tq =>
              simp only [genPresetFrom, h]
              split
              · split
                · split
                  · simp only; omega
                  · exact le_trans (ih (attempt + 1)) (by omega)
                · split
                  · simp only; omega
                  · split
                    · simp only; omega
                    · exact le_trans (ih (attempt + 1)) (by omega)
              · split
                · split
                  · simp only; omega
                  · exact le_trans (ih (attempt + 1)) (by omega)
                · split
                  · split
                    · simp only; omega
                    · exact le_trans (ih (attempt + 1)) (by omega)
                  · simp only; omega
          | none =>
              simp only [genPresetFrom, h]
              split
              · split
                · simp only; omega
                · exact le_trans (ih (attempt + 1)) (by omega)
              · split
                · split
                  · simp only; omega
                  · exact le_trans (ih (attempt + 1)) (by omega)
                · simp only; omega
      | noAudio =>
          simp only [genPresetFrom, h]
          split
          · simp only; omega
          · exact le_trans (ih (attempt + 1)) (by omega)
      | errRetryable =>
          simp only [genPresetFrom, h]
          split
          · simp only; omega
          · exact le_trans (ih (attempt + 1)) (by omega)
      | errFatal =>
          simp only [genPresetFrom, h]
          split
          · simp only; omega
          · exact le_trans (ih (attempt + 1)) (by omega)

/-- If every remaining attempt yields an audio payload, the cloning loop
succeeds: an out-of-band duration ratio alone never turns into a failure. -/
theorem genCloneFrom_all_audio (o : ℕ → TtsOutcome) (t : ℚ)
    (attempt : ℕ) :
    ∀ fuel, 0 < fuel → (∀ i, i < attempt + fuel → ∃ d gt, o i = .ok d gt) →
      (genCloneFrom o (some t) attempt fuel).1 = true := by
  intro fuel
  induction fuel generalizing attempt with
  | zero => omega
  | succ n ih =>
      intro _ hall
      obtain ⟨d, gt, h⟩ := hall attempt (by omega)
      have hih : ¬ n = 0 → (genCloneFrom o (some t) (attempt + 1) n).1 = true := by
        intro hn
        exact ih (attempt + 1) (by omega) (by intro i hi; exact hall i (by omega))
      simp only [genCloneFrom, h]
      split
      · split
        · split
          · rfl
          · next hn => exact hih hn
        · split
          · rfl
          · split
            · rfl
            · next hn => exact hih hn
      · split
        · next hcond => exact hih hcond.2
        · split
          · next hcond => exact hih hcond.2.2
          · rfl

/-- With a positive target duration, the preset-voice loop likewise
succeeds whenever every remaining attempt yields an audio payload: an
out-of-band duration ratio alone never turns into a failure. -/
theorem genPresetFrom_all_audio (o : ℕ → TtsOutcome) (t : ℚ) (attempt : ℕ)
    (ht : 0 < t) :
    ∀ fuel, 0 < fuel → (∀ i, i < attempt + fuel → ∃ d gt, o i = .ok d gt) →
      (genPresetFrom o (some t) attempt fuel).1 = true := by
  intro fuel
  induction fuel generalizing attempt with
  | zero => omega
  | succ n ih =>
      intro _ hall
      obtain ⟨d, gt, h⟩ := hall attempt (by omega)
      have hih : ¬ n = 0 → (genPresetFrom o (some t) (attempt + 1) n).1 = true := by
        intro hn
        exact ih (attempt + 1) (by omega) (by intro i hi; exact hall i (by omega))
      simp only [genPresetFrom, h]
      split
      · split
        · split
          · rfl
          · next hn => exact hih hn
        · split
          · rfl
          · split
            · rfl
            · next hn => exact hih hn
      · next ht2 => exact absurd ht ht2

/-- Without a target duration, the preset-voice loop fails when every
attempt returns audio of abnormal absolute duration (`> 20` s or
`< 0.5` s): each clip is deleted, and exhaustion ends in failure even
though audio was returned on every attempt. -/
theorem genPresetFrom_none_abnormal (o : ℕ → TtsOutcome) (attempt : ℕ) :
    ∀ fuel,
      (∀ i, i < attempt + fuel →
        ∃ d gt, o i = .ok d gt ∧ (d > 20 ∨ d < 0.5)) →
      (genPresetFrom o none attempt fuel).1 = false := by
  intro fuel
  induction fuel generalizing attempt with
  | zero => intro _; rfl
  | succ n ih =>
      intro hall
      obtain ⟨d, gt, h, habn⟩ := hall attempt (by omega)
      simp only [genPresetFrom, h]
      rw [if_pos habn]
      split
      · rfl
      · exact ih (attempt + 1) (by intro i hi; exact hall i (by omega))

/-- Membership is preserved by the stable start-time insertion. -/
theorem mem_insertByStart (a b : ℚ × Option WavFile) :
    ∀ l, b ∈ insertByStart a l ↔ b = a ∨ b ∈ l := by
  intro l
  induction l with
  | nil => simp [insertByStart]
  | cons c cs ih =>
      rw [insertByStart]
      split
      · simp
      · simp [ih]
        tauto

/-- Membership is preserved by the stable start-time sort. -/
theorem mem_sortByStart (b : ℚ × Option WavFile) :
    ∀ l, b ∈ sortByStart l ↔ b ∈ l := by
  intro l
  induction l with
  | nil => simp [sortByStart]
  | cons c cs ih => rw [sortByStart, mem_insertByStart]; simp [ih]

/-- A placement whose start sample lies inside the buffer never changes the
buffer length: the copy is clipped at the buffer end. -/
theorem placeFrames_length (buf : List ℤ) (s : ℤ) (frames : List ℤ)
    (h0 : 0 ≤ s) (hL : s ≤ (buf.length : ℤ)) :
    (placeFrames buf s frames).length = buf.length := by
  rw [placeFrames]
  simp only [pyIdx, pySliceTo]
  split_ifs <;>
    simp only [List.length_append, List.length_take, List.length_drop,
      Nat.min_def, Nat.max_def] <;>
    (try split_ifs) <;> omega

/-- A placement that fits entirely inside the buffer replaces exactly its
window. -/
theorem placeFrames_in_range (buf : List ℤ) (s : ℤ) (frames : List ℤ)
    (h0 : 0 ≤ s) (hfit : s.toNat + frames.length ≤ buf.length) :
    placeFrames buf s frames =
      buf.take s.toNat ++ frames ++ buf.drop (s.toNat + frames.length) := by
  rw [placeFrames]
  have hnotover : ¬ s + (frames.length : ℤ) > (buf.length : ℤ) := by omega
  rw [if_neg hnotover, if_neg hnotover]
  have ha : pyIdx s buf.length = s.toNat := by
    simp only [pyIdx]
    rw [if_neg (by omega), min_eq_left (by omega)]
  have hb : pyIdx (s + (frames.length : ℤ)) buf.length = s.toNat + frames.length := by
    simp only [pyIdx]
    rw [if_neg (by omega), min_eq_left (by omega)]
    omega
  rw [ha, hb, max_eq_right (by omega)]

/-- The assembler is the fold of `assembleStep` over the sorted segments. -/
theorem assembleAudioTimeline_eq_fold (audio_segments : List (ℚ × Option WavFile))
    (total_duration : ℚ) :
    assembleAudioTimeline audio_segments total_duration =
      (sortByStart audio_segments).foldl assembleStep
        (List.replicate (pyInt (total_duration * 24000)).toNat 0) := rfl

/-- Folding placements whose start samples all lie inside the buffer keeps
the buffer length. -/
theorem foldl_assembleStep_length :
    ∀ (l : List (ℚ × Option WavFile)) (buf : List ℤ),
      (∀ p ∈ l, 0 ≤ pyInt (p.1 * 24000) ∧
        pyInt (p.1 * 24000) ≤ (buf.length : ℤ)) →
      (l.foldl assembleStep buf).length = buf.length := by
  intro l
  induction l with
  | nil => intro buf _; rfl
  | cons x xs ih =>
      intro buf hok
      have hx := hok x (by simp)
      have hstep : (assembleStep buf x).length = buf.length := by
        rw [assembleStep]
        rcases x with ⟨tq, f?⟩
        rcases f? with _ | f
        · rfl
        · simp only
          split
          · rfl
          · exact placeFrames_length buf _ _ hx.1 hx.2
      rw [List.foldl_cons, ih (assembleStep buf x)
        (by intro p hp; rw [hstep]; exact hok p (by simp [hp]))]
      exact hstep

/-- Inserting a segment that the step ignores does not change the fold. -/
theorem foldl_assembleStep_insert_skip (a : ℚ × Option WavFile)
    (hskip : ∀ buf, assembleStep buf a = buf) :
    ∀ (l : List (ℚ × Option WavFile)) (buf : List ℤ),
      (insertByStart a l).foldl assembleStep buf = l.foldl assembleStep buf := by
  intro l
  induction l with
  | nil => intro buf; simp [insertByStart, hskip]
  | cons c cs ih =>
      intro buf
      rw [insertByStart]
      split
      · simp [hskip]
      · simp only [List.foldl_cons, ih]

/-- Every enumerated triple records a real position of the sentence list. -/
theorem enumFrom_map_mem (l : List SentenceRec) :
    ∀ (n : ℕ) (c : ℕ × SentenceRec × ℚ),
      c ∈ (List.enumFrom n l).map (fun p => (p.1, p.2, durOf p.2)) →
      ∃ k, c.1 = n + k ∧ l.get? k = some c.2.1 ∧ c.2.2 = durOf c.2.1 := by
  induction l with
  | nil => intro n c h; simp [List.enumFrom] at h
  | cons x xs ih =>
      intro n c h
      simp only [List.enumFrom, List.map_cons, List.mem_cons] at h
      rcases h with h | h
      · exact ⟨0, by simp [h], by simp [h], by simp [h]⟩
      · obtain ⟨k, hk1, hk2, hk3⟩ := ih (n + 1) c h
        exact ⟨k + 1, by omega, by simpa using hk2, hk3⟩

/-- Conversely, every position of the sentence list appears among the
enumerated triples. -/
theorem enumFrom_map_of_get (l : List SentenceRec) :
    ∀ (n k : ℕ) (s : SentenceRec), l.get? k = some s →
      (n + k, s, durOf s) ∈ (List.enumFrom n l).map (fun p => (p.1, p.2, durOf p.2)) := by
  induction l with
  | nil => intro n k s h; simp at h
  | cons x xs ih =>
      intro n k s h
      cases k with
      | zero =>
          simp only [List.get?_cons_zero, Option.some.injEq] at h
          simp [List.enumFrom, h]
      | succ k' =>
          simp only [List.get?_cons_succ] at h
          have hmem := ih (n + 1) k' s h
          simp only [List.enumFrom, List.map_cons, List.mem_cons]
          right
          rw [show n + (k' + 1) = (n + 1) + k' by omega]
          exact hmem

/-- The filtered enumeration is empty exactly when no sentence passes. -/
theorem filter_enumFrom_nil (q : SentenceRec → Bool) (l : List SentenceRec)
    (n : ℕ) :
    ((List.enumFrom n l).map (fun p => (p.1, p.2, durOf p.2))).filter
        (fun c => q c.2.1) = [] ↔ ∀ s ∈ l, q s = false := by
  rw [List.filter_eq_nil_iff]
  constructor
  · intro h s hs
    obtain ⟨k, hk⟩ := List.mem_iff_get?.1 hs
    have := h _ (enumFrom_map_of_get l n k s hk)
    simpa using this
  · intro h c hc
    obtain ⟨k, _, h2, _⟩ := enumFrom_map_mem l n c hc
    have hmem : c.2.1 ∈ l := List.mem_iff_get?.2 ⟨k, h2⟩
    simp [h _ hmem]

/-- The head of the filtered enumeration is the first sentence passing the
filter: it passes, and every earlier position fails. -/
theorem filter_enumFrom_first (q : SentenceRec → Bool) (l : List SentenceRec) :
    ∀ (n : ℕ) (c : ℕ × SentenceRec × ℚ) (rest : List (ℕ × SentenceRec × ℚ)),
      ((List.enumFrom n l).map (fun p => (p.1, p.2, durOf p.2))).filter
        (fun c => q c.2.1) = c :: rest →
      ∃ k, c.1 = n + k ∧ l.get? k = some c.2.1 ∧ c.2.2 = durOf c.2.1 ∧
        q c.2.1 = true ∧ ∀ j u, j < k → l.get? j = some u → q u = false := by
  induction l with
  | nil => intro n c rest h; simp [List.enumFrom] at h
  | cons x xs ih =>
      intro n c rest h
      simp only [List.enumFrom, List.map_cons] at h
      rw [List.filter_cons] at h
      by_cases hq : q x = true
      · rw [if_pos (by simpa using hq)] at h
        obtain ⟨hc, -⟩ := List.cons.injEq .. ▸ h
        refine ⟨0, by simp [← hc], by simp [← hc], by simp [← hc],
          by simp [← hc, hq], ?_⟩
        intro j u hj
        omega
      · rw [if_neg (by simpa using hq)] at h
        obtain ⟨k, h1, h2, h3, h4, h5⟩ := ih (n + 1) c rest h
        refine ⟨k + 1, by omega, by simpa using h2, h3, h4, ?_⟩
        intro j u hj hu
        cases j with
        | zero =>
            simp only [List.get?_cons_zero, Option.some.injEq] at hu
            subst hu
            simpa using hq
        | succ j' =>
            exact h5 j' u (by omega) (by simpa using hu)

/-- Membership is preserved by the stable duration insertion. -/
theorem mem_insertByDurDesc (a b : ℕ × SentenceRec × ℚ) :
    ∀ l, b ∈ insertByDurDesc a l ↔ b = a ∨ b ∈ l := by
  intro l
  induction l with
  | nil => simp [insertByDurDesc]
  | cons c cs ih =>
      rw [insertByDurDesc]
      split
      · simp
      · simp [ih]
        tauto

/-- The stable descending sort of a nonempty list starts with a maximal
element. -/
theorem sortByDurDesc_head_max :
    ∀ (l : List (ℕ × SentenceRec × ℚ)), l ≠ [] →
      ∃ m rest, sortByDurDesc l = m :: rest ∧ m ∈ l ∧ ∀ y ∈ l, y.2.2 ≤ m.2.2 := by
  intro l
  induction l with
  | nil => intro h; exact absurd rfl h
  | cons a l ih =>
      intro _
      cases l with
      | nil => exact ⟨a, [], rfl, by simp, by simp⟩
      | cons b l' =>
          obtain ⟨m, rest, hsort, hm, hmax⟩ := ih (by simp)
          rw [show sortByDurDesc (a :: b :: l') =
            insertByDurDesc a (sortByDurDesc (b :: l')) from rfl, hsort,
            show insertByDurDesc a (m :: rest) =
              if m.2.2 ≤ a.2.2 then a :: m :: rest
              else m :: insertByDurDesc a rest from rfl]
          by_cases hc : m.2.2 ≤ a.2.2
          · rw [if_pos hc]
            refine ⟨a, m :: rest, rfl, by simp, ?_⟩
            intro y hy
            rcases List.mem_cons.1 hy with h | h
            · subst h; exact le_refl _
            · exact le_trans (hmax y h) hc
          · rw [if_neg hc]
            refine ⟨m, insertByDurDesc a rest, rfl, by simp [hm], ?_⟩
            intro y hy
            rcases List.mem_cons.1 hy with h | h
            · subst h; exact le_of_lt (lt_of_not_ge hc)
            · exact hmax y h

/-! ## Claim theorems and witnesses -/

/-- Claim C8, counterexample: for a source duration of 1.5 s the code
computes `max(int(1.5 * 2.5), 3) = max(3, 3) = 3`, while the claimed
formula `max(round(1.5 * 2.5), 3) = max(round(3.75), 3)` gives 4: Python
`int` truncates, it does not round. -/
theorem word_budget_counterexample :
    target_words (3/2) = 3 ∧ targetWordsSpec (3/2) = 4 := by
  constructor
  · unfold target_words pyInt; norm_num
  · unfold targetWordsSpec; norm_num

/-- Claim C8, amended: the target word budget is
`max(floor(sourceDuration × 2.5), 3)` — truncation toward zero, which for
the nonnegative durations of the data model is the floor, not rounding;
every source duration `≤ 0` still yields 3 (in the pipeline such sentences
are skipped before the budget is computed). -/
theorem word_budget_amended (d : ℚ) :
    (d ≤ 0 → target_words d = 3) ∧
    (0 ≤ d → target_words d = max ⌊d * 2.5⌋ 3) := by
  constructor
  · intro hd
    have hq : d * 2.5 ≤ 0 := by nlinarith
    unfold target_words pyInt
    split_ifs with h
    · have hceil : ⌈d * 2.5⌉ ≤ 0 := Int.ceil_le.mpr (by exact_mod_cast hq)
      exact max_eq_right (by omega)
    · have hfl : ⌊d * 2.5⌋ ≤ 0 := Int.floor_nonpos hq
      exact max_eq_right (by omega)
  · intro hd
    unfold target_words pyInt
    rw [if_neg (not_lt.mpr (mul_nonneg hd (by norm_num)))]

/-- Witness for the amended C8 theorem at concrete inputs. -/
theorem word_budget_amended_witness :
    target_words (-1) = 3 ∧ target_words 2 = max ⌊(2 : ℚ) * 2.5⌋ 3 :=
  ⟨(word_budget_amended (-1)).1 (by norm_num),
   (word_budget_amended 2).2 (by norm_num)⟩

/-- Claim C2, counterexample: at `actual = 1 s`, `target = 2.1 s` the ratio
is 2.1, so the claim demands a time-stretch by `1/2.1`; the step3_C aligner
instead pads with silence because its padding cutoff is 2.0, not 2.2. -/
theorem align_ladder_counterexample :
    align_audio_to_duration 1 (21/10) = AlignAction.padded (11/10) ∧
    alignSpec 1 (21/10) = AlignAction.stretched (10/21) := by
  constructor
  · unfold align_audio_to_duration; norm_num
  · unfold alignSpec; norm_num

/-- Claim C2, amended: the tts_generator aligner behaves exactly as the
claim states (accept unchanged for ratio in `[0.9, 1.1]`, stretch by
`1/ratio` for ratio `< 2.2`, pad for ratio `≥ 2.2`, fail for
`actual ≤ 0`); the step3_C aligner deviates: it pads already for
`ratio ≥ 2.0`, and for `ratio ≤ 0.5` it keeps the overlong clip unchanged
instead of stretching it. -/
theorem align_ladder_amended (actual target_duration : ℚ) :
    alignAudioDuration actual target_duration = alignSpec actual target_duration ∧
    (0 < actual → 2 ≤ target_duration / actual →
      align_audio_to_duration actual target_duration =
        AlignAction.padded (target_duration - actual)) ∧
    (0 < actual → target_duration / actual ≤ 1/2 →
      align_audio_to_duration actual target_duration =
        AlignAction.keptUnchanged) := by
  refine ⟨?_, ?_, ?_⟩
  · simp only [alignAudioDuration, alignSpec]
    split_ifs <;> first | rfl | linarith
  · intro hpos hr
    simp only [align_audio_to_duration]
    rw [if_neg (not_le.mpr hpos)]
    have h1 : ¬ ((0.9 : ℚ) ≤ target_duration / actual ∧
        target_duration / actual ≤ 1.1) := by
      rintro ⟨-, h⟩; norm_num at h; linarith
    have h2 : ¬ ((1.1 : ℚ) < target_duration / actual ∧
        target_duration / actual < 2.0) := by
      rintro ⟨-, h⟩; norm_num at h; linarith
    have h3 : ¬ (target_duration / actual < (0.9 : ℚ) ∧
        (0.5 : ℚ) < target_duration / actual) := by
      rintro ⟨h, -⟩; norm_num at h; linarith
    rw [if_neg h1, if_neg h2, if_neg h3, if_pos (by norm_num; linarith)]
  · intro hpos hr
    simp only [align_audio_to_duration]
    rw [if_neg (not_le.mpr hpos)]
    have h1 : ¬ ((0.9 : ℚ) ≤ target_duration / actual ∧
        target_duration / actual ≤ 1.1) := by
      rintro ⟨h, -⟩; norm_num at h; linarith
    have h2 : ¬ ((1.1 : ℚ) < target_duration / actual ∧
        target_duration / actual < 2.0) := by
      rintro ⟨h, -⟩; norm_num at h; linarith
    have h3 : ¬ (target_duration / actual < (0.9 : ℚ) ∧
        (0.5 : ℚ) < target_duration / actual) := by
      rintro ⟨-, h⟩; norm_num at h; linarith
    have h4 : ¬ ((2.0 : ℚ) ≤ target_duration / actual) := by
      intro h; norm_num at h; linarith
    rw [if_neg h1, if_neg h2, if_neg h3, if_neg h4]

/-- Witness for the amended C2 theorem at concrete inputs: ratio 3 pads in
step3_C, ratio 1/4 is kept unchanged there, and the tts_generator aligner
agrees with the claim. -/
theorem align_ladder_amended_witness :
    alignAudioDuration 1 3 = alignSpec 1 3 ∧
    align_audio_to_duration 1 3 = AlignAction.padded (3 - 1) ∧
    align_audio_to_duration 1 (1/4) = AlignAction.keptUnchanged :=
  ⟨(align_ladder_amended 1 3).1,
   (align_ladder_amended 1 3).2.1 (by norm_num) (by norm_num),
   (align_ladder_amended 1 (1/4)).2.2 (by norm_num) (by norm_num)⟩

/-- Claim C9, confirmed: when the background track is absent (no path, or
the path does not exist) or unreadable (the ffmpeg mix fails and
`_mix_audio_with_bgm` returns False), the mix step hands on the speech
track itself, sample for sample; the function is total, so no failure is
raised. -/
theorem bgm_mix_noop (speech_only : List ℤ) (keep_background : Bool)
    (bgm_path : Option String) (pathExists : String → Bool)
    (mixOutcome : Option (List ℤ))
    (h : bgm_path = none ∨
      ∃ p, bgm_path = some p ∧ (pathExists p = false ∨ mixOutcome = none)) :
    mixBackgroundStep speech_only keep_background bgm_path pathExists
      mixOutcome = speech_only := by
  rcases h with h | ⟨p, hp, hcase⟩
  · subst h; rfl
  · subst hp
    simp only [mixBackgroundStep]
    rcases hcase with hex | hmix
    · rw [if_neg (by simp [hex])]
    · subst hmix
      split <;> rfl

/-- Witness for C9 at a concrete input: an existing path whose mix fails. -/
theorem bgm_mix_noop_witness :
    mixBackgroundStep [3, 1, 4] true (some "accompaniment.wav")
      (fun _ => true) none = [3, 1, 4] :=
  bgm_mix_noop [3, 1, 4] true (some "accompaniment.wav") (fun _ => true) none
    (Or.inr ⟨"accompaniment.wav", rfl, Or.inr rfl⟩)

/-- Claim C6, confirmed: each of the three synthesize wrappers makes at
most `max_retries` calls to the external service, for every input text,
every target duration, and every sequence of service outcomes, and being
total functions they always return an answer (success with a clip, or
failure). -/
theorem retry_termination_bound (text : String) (outcomes : ℕ → TtsOutcome)
    (target_duration : Option ℚ) (max_retries : ℕ) :
    (generate_female_voice text outcomes max_retries).2 ≤ max_retries ∧
    (generateWithVoiceCloning outcomes target_duration max_retries).2 ≤ max_retries ∧
    (generateWithPresetVoice text outcomes target_duration max_retries).2 ≤ max_retries := by
  refine ⟨?_, ?_, ?_⟩
  · rw [generate_female_voice]
    split
    · simp
    · simpa using genFemaleFrom_calls_le outcomes 0 max_retries
  · simpa using genCloneFrom_calls_le outcomes target_duration 0 max_retries
  · rw [generateWithPresetVoice]
    split
    · simp
    · simpa using genPresetFrom_calls_le outcomes target_duration 0 max_retries

/-- Claim C5, counterexample: when the service returns audio on every one
of the 10 attempts but the clip always has abnormal length (0.5 s < 1 s),
`generate_female_voice` discards each clip and signals failure after the
budget is spent, even though audio was returned by the service on every
attempt — it does not return the last generated clip. -/
theorem besteffort_counterexample :
    generate_female_voice "hello" (fun _ => TtsOutcome.ok (1/2) 1) 10 =
      (false, 10) := by
  rw [generate_female_voice, if_neg (by decide)]
  simpa using genFemaleFrom_all_short 0 10

/-- Claim C5, amended: the return-the-last-clip-on-exhaustion policy holds
for BOTH tts_generator synthesizers when a positive target duration is
supplied: if the service returns audio on every attempt, the voice-cloning
call and the preset-voice call both succeed, no matter how far the
duration ratios are off.  In contrast, the no-target branch of the preset
generator (like step3_B's `generate_female_voice`, the counterexample)
discards clips of abnormal absolute duration and signals failure after
exhausting the retries even though audio was returned on every attempt. -/
theorem besteffort_amended (outcomes : ℕ → TtsOutcome) (t : ℚ) (text : String)
    (max_retries : ℕ) (hmax : 0 < max_retries) (ht : 0 < t)
    (htext : pyStripIsEmpty text = false) :
    ((∀ i, i < max_retries → ∃ d gt, outcomes i = TtsOutcome.ok d gt) →
      (generateWithVoiceCloning outcomes (some t) max_retries).1 = true ∧
      (generateWithPresetVoice text outcomes (some t) max_retries).1 = true) ∧
    ((∀ i, i < max_retries →
        ∃ d gt, outcomes i = TtsOutcome.ok d gt ∧ (d > 20 ∨ d < 0.5)) →
      (generateWithPresetVoice text outcomes none max_retries).1 = false) := by
  refine ⟨fun hall => ⟨?_, ?_⟩, fun hall => ?_⟩
  · rw [generateWithVoiceCloning]
    exact genCloneFrom_all_audio outcomes t 0 max_retries hmax (by simpa using hall)
  · rw [generateWithPresetVoice, if_neg (by simp [htext])]
    exact genPresetFrom_all_audio outcomes t 0 ht max_retries hmax
      (by simpa using hall)
  · rw [generateWithPresetVoice, if_neg (by simp [htext])]
    exact genPresetFrom_none_abnormal outcomes 0 max_retries (by simpa using hall)

/-- Witness for the amended C5 theorem: three attempts, every one returning
a 100 s clip.  Against a 2 s target both synthesizers still succeed
(ratio 50, far outside `[0.5, 2.2]`); with no target the preset generator
fails because 100 s is an abnormal absolute duration. -/
theorem besteffort_amended_witness :
    (generateWithVoiceCloning (fun _ => TtsOutcome.ok 100 1) (some 2) 3).1 = true ∧
    (generateWithPresetVoice "hi" (fun _ => TtsOutcome.ok 100 1) (some 2) 3).1 = true ∧
    (generateWithPresetVoice "hi" (fun _ => TtsOutcome.ok 100 1) none 3).1 = false := by
  have H := besteffort_amended (fun _ => TtsOutcome.ok 100 1) 2 "hi" 3
    (by norm_num) (by norm_num) (by decide)
  exact ⟨(H.1 (fun i _ => ⟨100, 1, rfl⟩)).1,
    (H.1 (fun i _ => ⟨100, 1, rfl⟩)).2,
    H.2 (fun i _ => ⟨100, 1, rfl, Or.inl (by norm_num)⟩)⟩

/-- Claim C4, counterexample: a segment starting 3 samples into a 1-sample
timeline does not contribute nothing — Python bytearray slice assignment
clamps the out-of-range slice to the buffer end and INSERTS the truncated
payload there, growing the buffer from 1 sample to 3.  The assembled
length therefore does depend on the segments placed. -/
theorem buffer_growth_counterexample :
    (assembleAudioTimeline [(3/24000, some ⟨1, 24000, [5, 5, 5, 5]⟩)]
      (1/24000)).length = 3 ∧
    (assembleAudioTimeline [] (1/24000)).length = 1 := by
  constructor
  · norm_num [assembleAudioTimeline, sortByStart, insertByStart, placeFrames,
      pyIdx, pySliceTo, pyInt, List.replicate_succ]
    simp
  · norm_num [assembleAudioTimeline, sortByStart, pyInt]

/-- Claim C4, amended: a placement whose start sample lies inside the
buffer (at most the buffer length) never changes the buffer length — the
copy is clipped at the buffer end — and a segment starting exactly at the
buffer end contributes nothing; but a segment starting strictly beyond the
buffer end can append data and grow the buffer, so the assembled length is
independent only of segments starting within the timeline. -/
theorem placement_length_amended (buf : List ℤ) (s : ℤ) (frames : List ℤ) :
    (0 ≤ s → s ≤ (buf.length : ℤ) →
      (placeFrames buf s frames).length = buf.length) ∧
    placeFrames buf (buf.length : ℤ) frames = buf := by
  constructor
  · intro h0 hL
    exact placeFrames_length buf s frames h0 hL
  · rw [placeFrames]
    have ha : pyIdx (buf.length : ℤ) buf.length = buf.length := by
      simp [pyIdx]
    rcases Nat.eq_zero_or_pos frames.length with hf | hf
    · rw [if_neg (by omega), if_neg (by omega), ha]
      rw [List.length_eq_zero.mp hf]
      simp
    · rw [if_pos (by omega), if_pos (by omega), ha]
      have hslice : pySliceTo frames ((buf.length : ℤ) - (buf.length : ℤ)) = [] := by
        simp [pySliceTo, pyIdx]
      rw [hslice]
      simp

/-- Witness for the amended C4 theorem at concrete inputs. -/
theorem placement_length_amended_witness :
    (placeFrames [0, 0, 0] 1 [7, 7, 7, 7]).length = ([0, 0, 0] : List ℤ).length ∧
    placeFrames [0, 0] (([0, 0] : List ℤ).length : ℤ) [9] = [0, 0] :=
  ⟨(placement_length_amended [0, 0, 0] 1 [7, 7, 7, 7]).1 (by norm_num) (by norm_num),
   (placement_length_amended [0, 0] 0 [9]).2⟩

/-- Claim C1, counterexample: for a run whose last sentence ends at
1/48000 s, `int(total_duration * 24000) = int(0.5) = 0`, so the assembled
timeline has 0 samples, while `ceil(totalDuration × sampleRate) = 1`: the
code truncates, it does not take the ceiling. -/
theorem timeline_sample_count_counterexample :
    assemble_full_audio [(⟨0, 1/48000, "x"⟩, none)] = some [] ∧
    ⌈(1/48000 : ℚ) * 24000⌉ = 1 := by
  constructor
  · norm_num [assemble_full_audio, pyInt]
  · rw [Int.ceil_eq_iff]
    norm_num

/-- Claim C1, amended: for a non-empty sentence list with nonnegative
total duration, the assembled timeline has exactly
`floor(totalDuration × 24000)` samples (truncation, not ceiling),
regardless of how many segments failed or were skipped, provided every
placed segment starts within the timeline. -/
theorem timeline_sample_count_floor (sentences : List SentenceRec)
    (segs : List (ℚ × Option WavFile))
    (_hne : sentences ≠ [])
    (hpos : 0 ≤ totalDurationOf sentences)
    (hstart : ∀ p ∈ segs, 0 ≤ pyInt (p.1 * 24000) ∧
      pyInt (p.1 * 24000) ≤
        ((pyInt (totalDurationOf sentences * 24000)).toNat : ℤ)) :
    (assembleAudioTimeline segs (totalDurationOf sentences)).length =
      (⌊totalDurationOf sentences * 24000⌋).toNat := by
  have hlen := foldl_assembleStep_length (sortByStart segs)
    (List.replicate (pyInt (totalDurationOf sentences * 24000)).toNat 0)
    (by
      intro p hp
      have h := hstart p ((mem_sortByStart p segs).1 hp)
      rw [List.length_replicate]
      exact h)
  rw [assembleAudioTimeline_eq_fold, hlen, List.length_replicate, pyInt,
    if_neg (not_lt.mpr (mul_nonneg hpos (by norm_num)))]

/-- Witness for the amended C1 theorem: one sentence ending at 2.5 s, one
failed segment and one mono segment at 1 s; 60000 samples result. -/
theorem timeline_sample_count_floor_witness :
    (assembleAudioTimeline [((0 : ℚ), none), ((1 : ℚ), some ⟨1, 24000, [7]⟩)]
      (totalDurationOf [⟨0, 5/2, "x"⟩])).length =
      (⌊totalDurationOf [⟨0, 5/2, "x"⟩] * 24000⌋).toNat := by
  have h := timeline_sample_count_floor [⟨0, 5/2, "x"⟩]
    [((0 : ℚ), none), ((1 : ℚ), some ⟨1, 24000, [7]⟩)]
    (by simp) (by norm_num [totalDurationOf])
    (by
      intro p hp
      simp only [List.mem_cons, List.not_mem_nil, or_false] at hp
      rcases hp with rfl | rfl
      · norm_num [pyInt, totalDurationOf]
      · norm_num [pyInt, totalDurationOf])
  exact h

/-- Claim C10, counterexample: `assemble_full_audio` of step3_C checks only
the sample rate; a stereo file at 24000 Hz is NOT skipped — its 2-D data
reaches the in-place addition, which raises a broadcasting ValueError and
aborts the assembly instead of leaving the region silent. -/
theorem format_skip_counterexample :
    assemble_full_audio
      [(⟨0, 2/24000, "s"⟩, some ⟨24000, SfData.stereo [(1, 1), (1, 1)]⟩)] =
      none := by
  norm_num [assemble_full_audio, npAddSlice, pyInt]

/-- Claim C10, amended: the two bytearray assemblers do skip every segment
whose file is not mono or not at 24000 Hz — assembling with such a segment
equals assembling without it, so no samples of that file are written, its
region keeps whatever the other segments give it (silence if none), and
the remaining segments are still assembled; the step3_C assembler however
checks only the sample rate and fails outright on a non-mono 24000 Hz
file. -/
theorem format_skip_amended (t : ℚ) (f : WavFile)
    (rest : List (ℚ × Option WavFile)) (td : ℚ)
    (hbad : f.channels ≠ 1 ∨ f.framerate ≠ 24000) :
    assembleAudioTimeline ((t, some f) :: rest) td =
      assembleAudioTimeline rest td := by
  rw [assembleAudioTimeline_eq_fold, assembleAudioTimeline_eq_fold,
    show sortByStart ((t, some f) :: rest) =
      insertByStart (t, some f) (sortByStart rest) from rfl]
  exact foldl_assembleStep_insert_skip (t, some f)
    (by intro buf; simp [assembleStep, hbad]) (sortByStart rest) _

/-- Witness for the amended C10 theorem: a stereo (2-channel) segment is
skipped by the bytearray assembler. -/
theorem format_skip_amended_witness :
    assembleAudioTimeline [((0 : ℚ), some ⟨2, 24000, [1]⟩)] (1/24000) =
      assembleAudioTimeline [] (1/24000) :=
  format_skip_amended 0 ⟨2, 24000, [1]⟩ [] (1/24000) (Or.inl (by decide))

set_option maxHeartbeats 1000000 in
/-- Claim C3, counterexample: in step3_C's `assemble_full_audio` placement
is `+=`, an additive sum.  Two overlapping segments — [1,1,1] at sample 0
and the later-starting [2,2] at sample 1 — leave [1,3,3,0] in the buffer:
the overlapped region holds the sums 1+2, not the later segment's
samples [2,2]. -/
theorem overlap_additive_counterexample :
    assemble_full_audio
      [(⟨0, 2/24000, "a"⟩, some ⟨24000, SfData.mono [1, 1, 1]⟩),
       (⟨1/24000, 4/24000, "b"⟩, some ⟨24000, SfData.mono [2, 2]⟩)] =
      some [1, 3, 3, 0] ∧ ([1, 3, 3, 0] : List ℚ) ≠ [1, 2, 2, 0] := by
  constructor
  · norm_num [assemble_full_audio, npAddSlice, pyIdx, pySliceTo, pyInt,
      SfData.len, List.replicate_succ]
    simp [List.replicate_succ]
    norm_num
  · intro h
    have := List.head_eq_of_cons_eq (List.tail_eq_of_cons_eq h)
    norm_num at this

/-- Claim C3, amended: in the two bytearray assemblers placement is indeed
overwrite — after placing an earlier segment and then a later-starting
segment that fits in the buffer, the later segment's window holds exactly
its own samples, whatever the earlier segment wrote there; the step3_C
assembler however sums overlapping samples. -/
theorem overlap_overwrite_amended (t1 t2 : ℚ) (f1 f2 : WavFile) (td : ℚ)
    (hc : f2.channels = 1) (hr : f2.framerate = 24000)
    (ht : t1 ≤ t2)
    (h10 : 0 ≤ pyInt (t1 * 24000))
    (h1L : pyInt (t1 * 24000) ≤ ((pyInt (td * 24000)).toNat : ℤ))
    (h20 : 0 ≤ pyInt (t2 * 24000))
    (h2L : (pyInt (t2 * 24000)).toNat + f2.samples.length ≤
      (pyInt (td * 24000)).toNat) :
    ((assembleAudioTimeline [(t1, some f1), (t2, some f2)] td).drop
        (pyInt (t2 * 24000)).toNat).take f2.samples.length = f2.samples := by
  have hdt : ∀ (A B C : List ℤ) (n : ℕ), A.length = n →
      ((A ++ (B ++ C)).drop n).take B.length = B := by
    intro A B C n hA
    subst hA
    rw [List.drop_left, List.take_left]
  rw [assembleAudioTimeline_eq_fold,
    show sortByStart [(t1, some f1), (t2, some f2)] =
      [(t1, some f1), (t2, some f2)] by simp [sortByStart, insertByStart, ht]]
  simp only [List.foldl_cons, List.foldl_nil]
  have hlen1 : (assembleStep (List.replicate (pyInt (td * 24000)).toNat 0)
      (t1, some f1)).length = (pyInt (td * 24000)).toNat := by
    rw [assembleStep]
    simp only
    split
    · simp
    · rw [placeFrames_length _ _ _ h10 (by simpa using h1L)]
      simp
  have hstep2 : assembleStep (assembleStep
        (List.replicate (pyInt (td * 24000)).toNat 0) (t1, some f1))
        (t2, some f2) =
      (assembleStep (List.replicate (pyInt (td * 24000)).toNat 0)
          (t1, some f1)).take (pyInt (t2 * 24000)).toNat ++
        (f2.samples ++
          (assembleStep (List.replicate (pyInt (td * 24000)).toNat 0)
            (t1, some f1)).drop
              ((pyInt (t2 * 24000)).toNat + f2.samples.length)) := by
    rw [show assembleStep (assembleStep
          (List.replicate (pyInt (td * 24000)).toNat 0) (t1, some f1))
          (t2, some f2) =
        placeFrames (assembleStep
          (List.replicate (pyInt (td * 24000)).toNat 0) (t1, some f1))
          (pyInt (t2 * 24000)) f2.samples by
      rw [assembleStep]
      simp only
      rw [if_neg (by simp [hc, hr])]]
    rw [placeFrames_in_range _ _ _ h20 (by rw [hlen1]; exact h2L),
      List.append_assoc]
  rw [hstep2]
  apply hdt
  rw [List.length_take, hlen1]
  exact min_eq_left (by omega)

/-- Witness for the amended C3 theorem: segment [1,1,1] at sample 0, then
the later segment [2,2] at sample 1, in a 4-sample timeline; the window of
the later segment holds exactly [2,2]. -/
theorem overlap_overwrite_amended_witness :
    ((assembleAudioTimeline [((0 : ℚ), some ⟨1, 24000, [1, 1, 1]⟩),
        ((1/24000 : ℚ), some ⟨1, 24000, [2, 2]⟩)] (4/24000)).drop
      (pyInt ((1/24000 : ℚ) * 24000)).toNat).take
      ([2, 2] : List ℤ).length = [2, 2] :=
  overlap_overwrite_amended 0 (1/24000) ⟨1, 24000, [1, 1, 1]⟩
    ⟨1, 24000, [2, 2]⟩ (4/24000) rfl rfl (by norm_num)
    (by norm_num [pyInt]) (by norm_num [pyInt]) (by norm_num [pyInt])
    (by norm_num [pyInt])

/-- Claim C7, confirmed: for a non-empty ordered sentence list,
`_find_best_reference` returns the first sentence whose duration lies in
`[3, 6]` and whose text is longer than 8 characters (with its index and
duration); when no sentence qualifies it returns a sentence of maximal
duration (the head of the stable descending sort, i.e. the longest of the
3 longest).  Being a pure function of the list, the selection is
deterministic: equal inputs give equal outputs. -/
theorem reference_selection_correct (sentences : List SentenceRec)
    (hne : sentences ≠ []) :
    ∃ i s, findBestReference sentences 3 6 = some (i, s, durOf s) ∧
      sentences.get? i = some s ∧
      ((refCandOK 3 6 s = true ∧
          ∀ j u, j < i → sentences.get? j = some u → refCandOK 3 6 u = false) ∨
        ((∀ u ∈ sentences, refCandOK 3 6 u = false) ∧
          ∀ u ∈ sentences, durOf u ≤ durOf s)) := by
  cases hfil : (sentences.enum.map (fun p => (p.1, p.2, durOf p.2))).filter
      (fun c => refCandOK 3 6 c.2.1) with
  | cons c rest =>
      have hres : findBestReference sentences 3 6 = some c := by
        simp only [findBestReference, hfil, List.isEmpty_cons]
        simp
      obtain ⟨k, hk1, hk2, hk3, hk4, hk5⟩ :=
        filter_enumFrom_first (refCandOK 3 6) sentences 0 c rest (by exact hfil)
      refine ⟨c.1, c.2.1, ?_, ?_, Or.inl ⟨hk4, ?_⟩⟩
      · rw [hres, ← hk3]
      · rw [hk1]; simpa using hk2
      · intro j u hj hu
        rw [hk1] at hj
        exact hk5 j u (by omega) hu
  | nil =>
      have hallfail : ∀ u ∈ sentences, refCandOK 3 6 u = false :=
        (filter_enumFrom_nil (refCandOK 3 6) sentences 0).1 (by exact hfil)
      have htriples : sentences.enum.map (fun p => (p.1, p.2, durOf p.2)) ≠ [] := by
        intro habs
        have hlen := congrArg List.length habs
        simp only [List.length_map, List.enum_length, List.length_nil] at hlen
        exact hne (List.length_eq_zero.mp hlen)
      obtain ⟨m, mrest, hsort, hm, hmax⟩ := sortByDurDesc_head_max _ htriples
      have hres : findBestReference sentences 3 6 = some m := by
        simp only [findBestReference, hfil, List.isEmpty_nil, if_true]
        rw [hsort]
        rfl
      obtain ⟨k, hk1, hk2, hk3⟩ := enumFrom_map_mem sentences 0 m (by exact hm)
      refine ⟨m.1, m.2.1, ?_, ?_, Or.inr ⟨hallfail, ?_⟩⟩
      · rw [hres, ← hk3]
      · rw [hk1]; simpa using hk2
      · intro u hu
        obtain ⟨j, hj⟩ := List.mem_iff_get?.1 hu
        have hmem := enumFrom_map_of_get sentences 0 j u hj
        have hle := hmax _ (by exact hmem)
        simpa [hk3] using hle

/-- Witness for C7: a single qualifying sentence (duration 4 s, ten
characters of text) is selected. -/
theorem reference_selection_correct_witness :
    ∃ i s, findBestReference [⟨0, 4, "hello too!"⟩] 3 6 = some (i, s, durOf s) ∧
      ([⟨0, 4, "hello too!"⟩] : List SentenceRec).get? i = some s ∧
      ((refCandOK 3 6 s = true ∧
          ∀ j u, j < i →
            ([⟨0, 4, "hello too!"⟩] : List SentenceRec).get? j = some u →
            refCandOK 3 6 u = false) ∨
        ((∀ u ∈ ([⟨0, 4, "hello too!"⟩] : List SentenceRec),
            refCandOK 3 6 u = false) ∧
          ∀ u ∈ ([⟨0, 4, "hello too!"⟩] : List SentenceRec),
            durOf u ≤ durOf s)) :=
  reference_selection_correct [⟨0, 4, "hello too!"⟩] (by simp)
